import Mathlib

/-!
Verification development for the edwh-bundler-plugin asset pipeline.

Shallow embedding of the Python sources
`src/edwh_bundler_plugin/bundler_plugin.py`, `src/edwh_bundler_plugin/js.py`
and `src/edwh_bundler_plugin/css.py`.  Python strings are modelled as
`List Char`; output sinks as partial maps from paths to file contents;
the external SCSS compiler, the TypeScript compiler and `textwrap.dedent`
are collaborators and appear as function parameters.  Fallible code returns
`Option`/`Except`.
-/

namespace Bundler

/-- Character list of a string literal (Python `str` values are modelled as `List Char`). -/
def chars (s : String) : List Char := s.data

/-! ### Python `str.replace` for a one-character pattern

All `replace` calls in `js.py` use single-character patterns, for which
Python's left-to-right scan is exactly a per-character substitution. -/

/-- Python `s.replace(c, rep)` for a single-character pattern `c`. -/
def replaceChar (c : Char) (rep : List Char) : List Char → List Char
  | [] => []
  | x :: xs => (if x = c then rep else [x]) ++ replaceChar c rep xs

/-! ### `js.py`: generated JS wrappers and their escaping (claim C3) -/

/-- Escape chain used by `js._include_hyperscript` and `js._append_to_head`:
`.replace("\\", "\\\\").replace("`", "\\`").replace("$", "\\$").replace("{", "\\{")`. -/
def escape_template (contents : List Char) : List Char :=
  replaceChar '\x7b' ['\\', '\x7b']
    (replaceChar '$' ['\\', '$']
      (replaceChar '\x60' ['\\', '\x60']
        (replaceChar '\\' ['\\', '\\'] contents)))

/-- Translation of `js._include_hyperscript`: escape backslash, backtick, `$`, brace,
then wrap in a `_hyperscript(`...`)` call. -/
def include_hyperscript (contents : List Char) : List Char :=
  chars "_hyperscript(`" ++
    replaceChar '\x7b' ['\\', '\x7b']
      (replaceChar '$' ['\\', '$']
        (replaceChar '\x60' ['\\', '\x60']
          (replaceChar '\\' ['\\', '\\'] contents))) ++
    chars "`)"

/-- Translation of `js._append_to_dom`: the html fragment only has backticks escaped
(`html.replace("`", "\\`")`) before being embedded. -/
def append_to_dom (html : List Char) : List Char :=
  chars "document.body.innerHTML += `" ++ replaceChar '\x60' ['\\', '\x60'] html ++ chars "`"

/-- Translation of `js._append_to_head`: same escape chain as `_include_hyperscript`,
wrapped in a head-style-injection expression. -/
def append_to_head (css : List Char) : List Char :=
  chars "document.head.innerHTML += `<style>" ++
    replaceChar '\x7b' ['\\', '\x7b']
      (replaceChar '$' ['\\', '$']
        (replaceChar '\x60' ['\\', '\x60']
          (replaceChar '\\' ['\\', '\\'] css))) ++
    chars "</style>`"

mutual
/-- A string is safely embeddable in a JS template-literal-like wrapper when every
backtick, `$` and brace occurrence is consumed by a preceding backslash and no
lone trailing backslash remains. -/
def escOK : List Char → Bool
  | [] => true
  | c :: rest =>
    if c = '\\' then escSkip rest
    else (!(c = '\x60' || c = '$' || c = '\x7b')) && escOK rest

/-- After an escaping backslash one more character must follow; it is consumed
unconditionally. -/
def escSkip : List Char → Bool
  | [] => false
  | _ :: rest => escOK rest
end

/-- Per-character encoding performed by the full escape chain of `escape_template`. -/
def escChar (x : Char) : List Char :=
  if x = '\\' then ['\\', '\\']
  else if x = '\x60' then ['\\', '\x60']
  else if x = '$' then ['\\', '$']
  else if x = '\x7b' then ['\\', '\x7b']
  else [x]

/-! ### Decimal rendering of numbers (Python f-string / `str(int)` formatting) -/

/-- Decimal digit character for `d < 10`. -/
def digitChar (d : Nat) : Char :=
  match d with
  | 0 => '0' | 1 => '1' | 2 => '2' | 3 => '3' | 4 => '4'
  | 5 => '5' | 6 => '6' | 7 => '7' | 8 => '8' | 9 => '9'
  | _ => '*'

/-- Fuel-indexed decimal rendering (most significant digit first). -/
def natDigitsCore : Nat → Nat → List Char → List Char
  | 0, _, acc => acc
  | fuel + 1, n, acc =>
    if n < 10 then digitChar n :: acc
    else natDigitsCore fuel (n / 10) (digitChar (n % 10) :: acc)

/-- Decimal digit string of a natural number, as produced by a Python f-string. -/
def natDigits (n : Nat) : List Char := natDigitsCore (n + 1) n []

/-- Python `str()` of an integer (used by `css.convert_scss_value` for numbers). -/
def intChars (n : Int) : List Char :=
  if n < 0 then '-' :: natDigits n.natAbs else natDigits n.toNat

/-! ### `bundler_plugin._decide_new_version` (claims C2 and C4) -/

/-- Translation of `bundler_plugin.XOR`: `result = bool(first); result ^= bool(item)` —
a parity fold, despite the docstring promising exactly-one semantics. -/
def XOR (first : Bool) (extra : List Bool) : Bool :=
  extra.foldl (fun result item => Bool.xor result item) first

/-- Latest published version row, as read through `previous.get("major", 0)` etc.
A missing row (`{}`) corresponds to all fields `0`. -/
structure PreviousVersion where
  major : Nat
  minor : Nat
  patch : Nat
deriving DecidableEq

/-- Outcome of `_decide_new_version`: the interactive-prompt path, the two
`ValueError`s, or a decided `(major, minor, patch, version)` tuple. -/
inductive VersionResult where
  | needsInput : VersionResult
  | conflict : VersionResult
  | invalid : List Char → VersionResult
  | ok : Nat → Nat → Nat → List Char → VersionResult
deriving DecidableEq

/-- Accumulate a decimal digit: `int()` over a digit string, one step. -/
def digitVal (acc : Nat) (c : Char) : Nat := 10 * acc + (c.toNat - 48)

/-- One part of the version regex `\d{1,3}`: a maximal digit run of length 1..3
followed by whatever remains.  (A run of 4+ digits can never match, because
after backtracking the next character would still be a digit.) -/
def parsePart (cs : List Char) : Option (Nat × List Char) :=
  let ds := cs.takeWhile (fun c => c.isDigit)
  let rest := cs.dropWhile (fun c => c.isDigit)
  if 1 ≤ ds.length ∧ ds.length ≤ 3 then some (ds.foldl digitVal 0, rest) else none

/-- Matching of `^(\d{1,3})(\.\d{1,3})?(\.\d{1,3})?$` with the source's
`int(groups[0][k].strip(".") or 0)` defaulting of missing parts. -/
def parseVersion (v : List Char) : Option (Nat × Nat × Nat) :=
  match parsePart v with
  | none => none
  | some (M, r1) =>
    match r1 with
    | [] => some (M, 0, 0)
    | '.' :: r2 =>
      match parsePart r2 with
      | none => none
      | some (m, r3) =>
        match r3 with
        | [] => some (M, m, 0)
        | '.' :: r4 =>
          match parsePart r4 with
          | some (p, []) => some (M, m, p)
          | _ => none
        | _ => none
    | _ => none

/-- Python `f"{major}.{minor}.{patch}"`. -/
def fmtVersion (M m p : Nat) : List Char :=
  natDigits M ++ '.' :: natDigits m ++ '.' :: natDigits p

/-- Translation of `bundler_plugin._decide_new_version`.  `version = []` models the
unset (`None` / empty) CLI value; `major/minor/patch` are the CLI bump flags. -/
def decide_new_version (major minor patch : Bool) (previous : PreviousVersion)
    (version : List Char) : VersionResult :=
  if !(version ≠ [] ∨ major ∨ minor ∨ patch) then
    -- interactive `input(...)` path
    .needsInput
  else if !(XOR (version ≠ []) [major, minor, patch]) then
    -- ValueError: "Please specify only one of --version, --major, --minor or --patch"
    .conflict
  else
    let version :=
      if major then natDigits (previous.major + 1) ++ chars ".0.0"
      else if minor then natDigits previous.major ++ '.' :: natDigits (previous.minor + 1) ++ chars ".0"
      else if patch then natDigits previous.major ++ '.' :: natDigits previous.minor ++
        '.' :: natDigits (previous.patch + 1)
      else version
    match parseVersion version with
    | none => .invalid version
    | some (M, m, p) => .ok M m p (fmtVersion M m p)

/-! ### `bundler_plugin._handle_files` output writing (claims C1 and C9)

`_handle_files` calls `start_buffer(output)` — the *final* path, not the
`TEMP_OUTPUT` default — so the pre-existing file at `output` is unlinked and
every fragment is appended directly to the destination; the closing
`os.rename(bufferf.name, output)` renames the destination onto itself. -/

/-- Unused-by-`_handle_files` temp-buffer constant `TEMP_OUTPUT = ".bundle_tmp"`. -/
def TEMP_OUTPUT : String := ".bundle_tmp"

/-- Filesystem abstraction: path to file contents, `none` when absent. -/
def FsState := String → Option (List Char)

/-- Fragment loop of `_handle_files`: each transformed result is written followed by
a newline; a `none` models the callback raising, which stops the loop with the
fragments written so far. -/
def runFragments : List (Option (List Char)) → List Char → Bool × List Char
  | [], acc => (true, acc)
  | none :: _, acc => (false, acc)
  | some s :: rest, acc => runFragments rest (acc ++ s ++ ['\n'])

/-- Translation of the sink-writing part of `_handle_files` for a filesystem-path
sink.  `results` are the per-entry callback outcomes in manifest order.  Returns
whether the build completed, and the filesystem afterwards. -/
def handle_files (results : List (Option (List Char))) (output : String)
    (fs : FsState) : Bool × FsState :=
  if results.isEmpty then (true, fs)     -- `if not files: return`
  else
    -- `start_buffer(output)`: unlink the existing file at `output`, open it in append mode
    let fs1 : FsState := fun p => if p = output then none else fs p
    let r := runFragments results []
    -- every fragment written so far sits directly at `output` (the buffer IS the output)
    let fs2 : FsState := fun p => if p = output then some r.2 else fs1 p
    if r.1 then
      -- `os.rename(bufferf.name, output)` with `bufferf.name == output`: a no-op
      (true, fun p => if p = output then fs2 output else fs2 p)
    else
      (false, fs2)

/-- Expected bundle text for successfully transformed entries, in manifest order,
each followed by a newline. -/
def bundled : List (List Char) → List Char
  | [] => []
  | t :: rest => t ++ '\n' :: bundled rest

/-! ### `bundler_plugin._fill_variables` (claim C5) -/

/-- Python `re.sub` of a plain-text pattern: left-to-right, non-overlapping, and the
replacement text is not rescanned.  Fuel-indexed; `s.length` fuel suffices for a
non-empty pattern. -/
def replaceListCore (pat rep : List Char) : Nat → List Char → List Char
  | 0, s => s
  | fuel + 1, s =>
    match s with
    | [] => []
    | c :: rest =>
      if pat.isPrefixOf (c :: rest) then rep ++ replaceListCore pat rep fuel ((c :: rest).drop pat.length)
      else c :: replaceListCore pat rep fuel rest

/-- Replace every occurrence of `pat` in `s` by `rep` (Python `re.sub` for a
plain-name pattern such as `\$key`). -/
def replaceList (pat rep s : List Char) : List Char := replaceListCore pat rep s.length s

mutual
/-- Setting values handled by `_fill_variables`: strings and nested mappings. -/
inductive SettingVal where
  | str : List Char → SettingVal
  | dict : SettingDict → SettingVal

/-- An ordered mapping of settings (Python dict in insertion order). -/
inductive SettingDict where
  | nil : SettingDict
  | cons : List Char → SettingVal → SettingDict → SettingDict
end

/-- String case of `_fill_variables`: return unchanged when `"$" not in setting`,
otherwise run `reg.sub(repl, setting)` for every table entry in order.  The table
is the `_regexify_settings` output, with each key `k` standing for the compiled
pattern `\$k`. -/
def fill_str (tbl : List (List Char × List Char)) (s : List Char) : List Char :=
  if '$' ∈ s then tbl.foldl (fun acc kv => replaceList ('$' :: kv.1) kv.2 acc) s else s

mutual
/-- Translation of `bundler_plugin._fill_variables`. -/
def fill_variables : SettingVal → List (List Char × List Char) → SettingVal
  | .str s, tbl => .str (fill_str tbl s)
  | .dict d, tbl => .dict (fill_dict d tbl)

/-- Recursive fill over a nested mapping: values filled, keys untouched. -/
def fill_dict : SettingDict → List (List Char × List Char) → SettingDict
  | .nil, _ => .nil
  | .cons k v rest, tbl => .cons k (fill_variables v tbl) (fill_dict rest tbl)
end

/-- Keys of a settings mapping, in order. -/
def dictKeys : SettingDict → List (List Char)
  | .nil => []
  | .cons k _ rest => k :: dictKeys rest

/-- Values of a settings mapping, in order. -/
def dictValues : SettingDict → List SettingVal
  | .nil => []
  | .cons _ v rest => v :: dictValues rest

/-! ### `css.convert_scss_value` / `convert_to_sass_variables` (claim C6) -/

mutual
/-- `SCSS_TYPES` values: `None | bool | int | float | str | list | dict`, plus
`other` for a Python value of any unsupported type.  A `float` is carried as the
decimal text that CPython's `str(value)` prints for it (shortest round-trip
formatting of an IEEE double is an external runtime behaviour, so the value is
represented by that text); integers carry their exact value and are rendered by
`intChars`. -/
inductive ScssVal where
  | null : ScssVal
  | bool : Bool → ScssVal
  | int : Int → ScssVal
  | float : List Char → ScssVal
  | str : List Char → ScssVal
  | list : ScssList → ScssVal
  | dict : ScssDict → ScssVal
  | other : ScssVal

/-- Ordered list of SCSS values. -/
inductive ScssList where
  | nil : ScssList
  | cons : ScssVal → ScssList → ScssList

/-- Ordered mapping of SCSS variable names to values. -/
inductive ScssDict where
  | nil : ScssDict
  | cons : List Char → ScssVal → ScssDict → ScssDict
end

/-- Translation of `css.convert_scss_key`: `$` prefix only at the top level,
underscores become hyphens. -/
def convert_scss_key (k : List Char) (lvl : Nat) : List Char :=
  (if lvl = 0 then ['$'] else []) ++ replaceChar '_' ['-'] k

/-- Python `value.removesuffix(";")`. -/
def removeSemi (s : List Char) : List Char :=
  if s.getLast? = some ';' then s.dropLast else s

/-- Python `", ".join(parts)`. -/
def joinComma : List (List Char) → List Char
  | [] => []
  | [p] => p
  | p :: rest => p ++ chars ", " ++ joinComma rest

mutual
/-- Translation of `css.convert_scss_value` (the `_level += 1` happens on entry, so
`lvl` here is the caller-supplied `_level`).  `none` models the
`NotImplementedError` (the spec's UnsupportedVariableType) raise. -/
def convert_scss_value : ScssVal → Nat → Option (List Char)
  | .str s, _ => some (removeSemi s)
  | .list items, lvl =>
    (convert_scss_list items (lvl + 1)).map (fun parts =>
      if lvl + 1 > 1 then '(' :: (joinComma parts ++ [')']) else joinComma parts)
  | .dict es, lvl =>
    (convert_scss_dict es (lvl + 1)).map (fun parts => '(' :: (joinComma parts ++ [')']))
  -- `case float(): return str(value)` — the carried text is exactly `str(value)`
  | .float s, _ => some s
  | .int n, _ => some (intChars n)
  | .null, _ => some (chars "null")
  | .bool true, _ => some (chars "true")
  | .bool false, _ => some (chars "false")
  | .other, _ => none

/-- List elements are converted at the incremented level. -/
def convert_scss_list : ScssList → Nat → Option (List (List Char))
  | .nil, _ => some []
  | .cons v rest, lvl =>
    match convert_scss_value v lvl, convert_scss_list rest lvl with
    | some c, some cs => some (c :: cs)
    | _, _ => none

/-- Mapping entries render as `key: value`, the key at the incremented level
(no `$` prefix), the value one level deeper. -/
def convert_scss_dict : ScssDict → Nat → Option (List (List Char))
  | .nil, _ => some []
  | .cons k v rest, lvl =>
    match convert_scss_value v (lvl + 1), convert_scss_dict rest lvl with
    | some c, some cs => some ((convert_scss_key k lvl ++ chars ": " ++ c) :: cs)
    | _, _ => none
end

/-- Variable-preamble language: SCSS (`;`-terminated) or indented SASS. -/
inductive ScssLang where
  | scss : ScssLang
  | sass : ScssLang
deriving DecidableEq

/-- Line terminator chosen by `convert_to_sass_variables`. -/
def varEol (lang : ScssLang) : List Char :=
  match lang with
  | .scss => chars ";\n"
  | .sass => chars "\n"

/-- Translation of `css.convert_to_sass_variables`: one `$key: value` declaration
per variable, in order. -/
def convert_to_sass_variables (lang : ScssLang) : ScssDict → Option (List Char)
  | .nil => some []
  | .cons k v rest =>
    match convert_scss_value v 0, convert_to_sass_variables lang rest with
    | some val, some code => some ((convert_scss_key k 0 ++ chars ": " ++ val ++ varEol lang) ++ code)
    | _, _ => none

/-! ### `css.convert_scss` fallback chain (claims C7 and C10)

`sass.compile` and `textwrap.dedent` are external collaborators, modelled as
function parameters.  `compileF code indented = none` models `try_sass_compile`
swallowing a `sass.CompileError`; the walrus `if result := ...` tests the result
for truthiness, so a successful compile to `""` is treated as a failed attempt.
The `minify` output style and the include-path list are constant across the three
attempts and are folded into the oracle. -/

/-- Failure modes of `convert_scss`: variable rendering raising, or all three
compile attempts failing. -/
inductive BundleError where
  | unsupportedVariable : BundleError
  | compile : BundleError
deriving DecidableEq

/-- Python truthiness of an optional string result. -/
def truthyOpt : Option (List Char) → Bool
  | some (_ :: _) => true
  | _ => false

/-- Translation of `css.convert_scss`: SCSS attempt, then indented SASS, then
indented SASS over the dedented source, else `CompileError`. -/
def convert_scss (compileF : List Char → Bool → Option (List Char))
    (dedent : List Char → List Char) (insert_variables : ScssDict)
    (contents : List Char) : Except BundleError (List Char) :=
  match convert_to_sass_variables .scss insert_variables with
  | none => .error .unsupportedVariable
  | some vars1 =>
    let r1 := compileF (vars1 ++ contents) false
    if truthyOpt r1 then .ok (r1.getD [])
    else
      match convert_to_sass_variables .sass insert_variables with
      | none => .error .unsupportedVariable
      | some vars2 =>
        let r2 := compileF (vars2 ++ contents) true
        if truthyOpt r2 then .ok (r2.getD [])
        else
          let r3 := compileF (vars2 ++ dedent contents) true
          if truthyOpt r3 then .ok (r3.getD [])
          else .error .compile

/-! ### `js.extract_contents_typescript` dependency inlining (claim C8)

Module identity: the compiled code of module `n` is represented by the token `n`
itself; the emitted bundle is the list of module tokens in final output order
(the real code joins them with newlines).  `deps n` is the dependency-name list
statically extracted by `find_dependencies` from the compiled module; `settings`
is the set of names for which an `__typescript_dependency_<dep>__` key is present.
Recursion through the module graph is fuel-indexed (`none` = out of fuel). -/

/-- Dependency loop of `extract_contents_typescript`: for each dependency name not
yet marked, mark it, recurse, and prepend the recursive output ahead of the code
accumulated so far (`js_code = dep_code + "\n" + js_code`). -/
def extract_ts_go (recurse : String → List String → Option (List String × List String)) :
    List String → List String → List String → Option (List String × List String)
  | [], js, st => some (js, st)
  | d :: rest, js, st =>
    if d ∈ st then extract_ts_go recurse rest js st
    else
      match recurse d (d :: st) with
      | none => none
      | some (seq, st') => extract_ts_go recurse rest (seq ++ js) st'

/-- Translation of `js.extract_contents_typescript`: compile the module (emit its
own token, last), then run the dependency loop.  The entry module's own name is
never marked. -/
def extract_ts (deps : String → List String) : Nat → String → List String →
    Option (List String × List String)
  | 0, _, _ => none
  | fuel + 1, path, settings => extract_ts_go (extract_ts deps fuel) (deps path) [path] settings

/-- Acyclic diamond module graph: the entry `a` imports `b` and `c`, and both
`b` and `c` import the shared dependency `d`. -/
def depsDiamond : String → List String := fun n =>
  if n = "a" then ["b", "c"]
  else if n = "b" then ["d"]
  else if n = "c" then ["d"]
  else []

/-- Cyclic module graph: the entry `a` imports `b` and `c`, and both import `a`
back. -/
def depsCycle : String → List String := fun n =>
  if n = "a" then ["b", "c"]
  else if n = "b" then ["a"]
  else if n = "c" then ["a"]
  else []

/-! ## Helper lemmas -/

theorem replaceChar_append (c : Char) (rep a b : List Char) :
    replaceChar c rep (a ++ b) = replaceChar c rep a ++ replaceChar c rep b := by
  induction a with
  | nil => rfl
  | cons x xs ih => simp [replaceChar, ih, List.append_assoc]

theorem escape_template_cons (x : Char) (s : List Char) :
    escape_template (x :: s) = escChar x ++ escape_template s := by
  by_cases h1 : x = '\\'
  · subst h1; simp [escape_template, escChar, replaceChar, replaceChar_append]
  · by_cases h2 : x = '\x60'
    · subst h2; simp [escape_template, escChar, replaceChar, replaceChar_append]
    · by_cases h3 : x = '$'
      · subst h3; simp [escape_template, escChar, replaceChar, replaceChar_append]
      · by_cases h4 : x = '\x7b'
        · subst h4; simp [escape_template, escChar, replaceChar, replaceChar_append]
        · simp [escape_template, escChar, replaceChar, replaceChar_append, h1, h2, h3, h4]

theorem escOK_escape_template (s : List Char) : escOK (escape_template s) = true := by
  induction s with
  | nil => rfl
  | cons x xs ih =>
    rw [escape_template_cons]
    by_cases h1 : x = '\\'
    · subst h1; simpa [escChar, escOK] using ih
    · by_cases h2 : x = '\x60'
      · subst h2; simpa [escChar, escOK] using ih
      · by_cases h3 : x = '$'
        · subst h3; simpa [escChar, escOK] using ih
        · by_cases h4 : x = '\x7b'
          · subst h4; simpa [escChar, escOK] using ih
          · simpa [escChar, escOK, h1, h2, h3, h4] using ih

theorem runFragments_map_some (texts : List (List Char)) :
    ∀ acc, runFragments (texts.map some) acc = (true, acc ++ bundled texts) := by
  induction texts with
  | nil => intro acc; simp [runFragments, bundled]
  | cons t rest ih =>
    intro acc
    simp only [List.map_cons, runFragments, bundled, ih (acc ++ t ++ ['\n'])]
    simp [List.append_assoc]

/-! ## Claim theorems -/

/-- C1 (code bug): with a two-entry manifest whose second transformation raises and a
pre-existing `bundle.js` containing `old`, `_handle_files` reports failure yet the
final destination now holds the half-written first fragment `x\n` instead of the
untouched pre-build bytes: `start_buffer` is called on the *output* path, so the old
file is unlinked and fragments are appended in place, and the closing
`os.rename(bufferf.name, output)` renames the destination onto itself. -/
theorem c1_partial_write_destroys_destination :
    (handle_files [some (chars "x"), none] "bundle.js"
        (fun p => if p = "bundle.js" then some (chars "old") else none)).1 = false ∧
    (handle_files [some (chars "x"), none] "bundle.js"
        (fun p => if p = "bundle.js" then some (chars "old") else none)).2 "bundle.js"
      = some (chars "x\n") := by
  decide

/-- C2 (code bug): `XOR` computes parity, not exactly-one, so requesting the three
bumps `--major --minor --patch` together slips past the "specify only one of" guard
and performs a plain major bump, while the two-set case `--major --version 1.0.0`
does raise the conflict `ValueError`. -/
theorem c2_three_flags_pass_parity_check :
    decide_new_version true true true ⟨0, 0, 0⟩ [] = .ok 1 0 0 (chars "1.0.0") ∧
    decide_new_version true false false ⟨0, 0, 0⟩ (chars "1.0.0") = .conflict := by
  decide

/-- C3 (counterexample): `_append_to_dom` embeds the html fragment with only
backticks escaped, not the full backslash/backtick/dollar/brace chain the claim
demands: on input `$` the produced wrapper differs from the fully-escaped one. -/
theorem c3_append_to_dom_not_fully_escaped :
    append_to_dom ['$']
      ≠ chars "document.body.innerHTML += `" ++ escape_template ['$'] ++ chars "`" := by
  decide

/-- C3 (amended): the hyperscript wrapper and the head-style-injection wrapper embed
their content through the full escape chain (backslash, backtick, `$`, brace), and
that chain leaves no unescaped backtick/dollar/brace and no dangling backslash; the
DOM-append wrapper escapes only backticks. -/
theorem c3_wrapper_escaping (s : List Char) :
    include_hyperscript s = chars "_hyperscript(`" ++ escape_template s ++ chars "`)" ∧
    append_to_head s
      = chars "document.head.innerHTML += `<style>" ++ escape_template s ++ chars "</style>`" ∧
    append_to_dom s
      = chars "document.body.innerHTML += `" ++ replaceChar '\x60' ['\\', '\x60'] s ++ chars "`" ∧
    escOK (escape_template s) = true :=
  ⟨rfl, rfl, rfl, escOK_escape_template s⟩

/-- C9: when every entry transforms successfully, `_handle_files` completes and the
destination holds exactly the transformed texts in manifest order, each fragment
followed by a single newline. -/
theorem c9_manifest_order (texts : List (List Char)) (output : String) (fs : FsState)
    (h : texts ≠ []) :
    (handle_files (texts.map some) output fs).1 = true ∧
    (handle_files (texts.map some) output fs).2 output = some (bundled texts) := by
  have hne : (texts.map some).isEmpty = false := by
    cases texts with
    | nil => exact absurd rfl h
    | cons t rest => rfl
  constructor <;>
    simp [handle_files, hne, runFragments_map_some texts []]

/-- C9 witness: a concrete two-entry manifest bundles to `a\nb\n`. -/
theorem c9_manifest_order_witness :
    (handle_files [some (chars "a"), some (chars "b")] "bundle.css" (fun _ => none)).1 = true ∧
    (handle_files [some (chars "a"), some (chars "b")] "bundle.css" (fun _ => none)).2 "bundle.css"
      = some (chars "a\nb\n") := by
  have h := c9_manifest_order [chars "a", chars "b"] "bundle.css" (fun _ => none) (by decide)
  exact ⟨h.1, h.2⟩

theorem exists_append_of_isPrefixOf :
    ∀ l₁ l₂ : List Char, l₁.isPrefixOf l₂ = true → ∃ t, l₁ ++ t = l₂
  | [], l₂, _ => ⟨l₂, rfl⟩
  | a :: as, [], h => by simp [List.isPrefixOf] at h
  | a :: as, b :: bs, h => by
    simp only [List.isPrefixOf, Bool.and_eq_true, beq_iff_eq] at h
    obtain ⟨t, ht⟩ := exists_append_of_isPrefixOf as bs h.2
    exact ⟨t, by simp [h.1, ht]⟩

theorem replaceListCore_skips (pat rep : List Char) :
    ∀ fuel s, ¬ pat <:+: s → replaceListCore pat rep fuel s = s := by
  intro fuel
  induction fuel with
  | zero => intro s _; rfl
  | succ fuel ih =>
    intro s hs
    match s with
    | [] => rfl
    | c :: rest =>
      have hpre : pat.isPrefixOf (c :: rest) = false := by
        by_contra hp
        have hp' : pat.isPrefixOf (c :: rest) = true := by
          revert hp; cases pat.isPrefixOf (c :: rest) <;> simp
        obtain ⟨t, ht⟩ := exists_append_of_isPrefixOf pat (c :: rest) hp'
        exact hs ⟨[], t, by simpa using ht⟩
      have hrest : ¬ pat <:+: rest := by
        rintro ⟨u, v, huv⟩
        exact hs ⟨c :: u, v, by simp [huv]⟩
      simp [replaceListCore, hpre, ih rest hrest]

theorem replaceList_skips (pat rep s : List Char) (h : ¬ pat <:+: s) :
    replaceList pat rep s = s :=
  replaceListCore_skips pat rep s.length s h

theorem fill_str_skips (tbl : List (List Char × List Char)) (s : List Char)
    (h : ∀ kv ∈ tbl, ¬ ('$' :: kv.1) <:+: s) : fill_str tbl s = s := by
  unfold fill_str
  split
  · clear * - h
    induction tbl with
    | nil => rfl
    | cons kv rest ih =>
      simp only [List.foldl_cons, replaceList_skips _ _ _ (h kv (by simp))]
      exact ih fun kv hm => h kv (by simp [hm])
  · rfl

theorem dictKeys_fill_dict (tbl : List (List Char × List Char)) :
    ∀ d, dictKeys (fill_dict d tbl) = dictKeys d
  | .nil => rfl
  | .cons k v rest => by
    simp [fill_dict, dictKeys, dictKeys_fill_dict tbl rest]

theorem dictValues_fill_dict (tbl : List (List Char × List Char)) :
    ∀ d, dictValues (fill_dict d tbl) = (dictValues d).map (fun v => fill_variables v tbl)
  | .nil => rfl
  | .cons k v rest => by
    simp [fill_dict, dictValues, dictValues_fill_dict tbl rest]

/-- C5: `_fill_variables` on a mapping fills every value recursively and leaves keys
untouched; a string without `$` is returned unchanged; `$name` tokens matching no
table entry are left verbatim; and the table `{a: x, b: y}` rewrites `$a/$b` to
`x/y`. -/
theorem c5_substitute :
    (∀ tbl d, fill_variables (.dict d) tbl = .dict (fill_dict d tbl)) ∧
    (∀ tbl d, dictKeys (fill_dict d tbl) = dictKeys d) ∧
    (∀ tbl d, dictValues (fill_dict d tbl) = (dictValues d).map (fun v => fill_variables v tbl)) ∧
    (∀ tbl s, '$' ∉ s → fill_variables (.str s) tbl = .str s) ∧
    (∀ tbl s, (∀ kv ∈ tbl, ¬ ('$' :: kv.1) <:+: s) → fill_variables (.str s) tbl = .str s) ∧
    fill_variables (.str (chars "$a/$b")) [(chars "a", chars "x"), (chars "b", chars "y")]
      = .str (chars "x/y") := by
  refine ⟨fun tbl d => rfl, dictKeys_fill_dict, dictValues_fill_dict, ?_, ?_, by rfl⟩
  · intro tbl s hs
    simp [fill_variables, fill_str, hs]
  · intro tbl s h
    simp [fill_variables, fill_str_skips tbl s h]

/-- C5 witness: a dollar-free string and a string whose `$q` token matches no table
key both pass through unchanged. -/
theorem c5_substitute_witness :
    fill_variables (.str (chars "plain/path")) [(chars "a", chars "x")] = .str (chars "plain/path") ∧
    fill_variables (.str (chars "$q")) [(chars "a", chars "x")] = .str (chars "$q") :=
  ⟨c5_substitute.2.2.2.1 [(chars "a", chars "x")] (chars "plain/path") (by decide),
   c5_substitute.2.2.2.2.1 [(chars "a", chars "x")] (chars "$q") (by decide)⟩

/-- C7: `convert_scss` tries the SCSS-syntax compile first; when it yields no usable
output it tries indented SASS; then indented SASS over the dedented source; and when
all three attempts fail it raises `CompileError`. -/
theorem c7_fallback_chain (compileF : List Char → Bool → Option (List Char))
    (dedent : List Char → List Char) (vars : ScssDict) (contents v1 v2 : List Char)
    (h1 : convert_to_sass_variables .scss vars = some v1)
    (h2 : convert_to_sass_variables .sass vars = some v2) :
    (truthyOpt (compileF (v1 ++ contents) false) = true →
      convert_scss compileF dedent vars contents = .ok ((compileF (v1 ++ contents) false).getD [])) ∧
    (truthyOpt (compileF (v1 ++ contents) false) = false →
      truthyOpt (compileF (v2 ++ contents) true) = true →
      convert_scss compileF dedent vars contents = .ok ((compileF (v2 ++ contents) true).getD [])) ∧
    (truthyOpt (compileF (v1 ++ contents) false) = false →
      truthyOpt (compileF (v2 ++ contents) true) = false →
      truthyOpt (compileF (v2 ++ dedent contents) true) = true →
      convert_scss compileF dedent vars contents
        = .ok ((compileF (v2 ++ dedent contents) true).getD [])) ∧
    (truthyOpt (compileF (v1 ++ contents) false) = false →
      truthyOpt (compileF (v2 ++ contents) true) = false →
      truthyOpt (compileF (v2 ++ dedent contents) true) = false →
      convert_scss compileF dedent vars contents = .error .compile) := by
  refine ⟨fun t1 => ?_, fun f1 t2 => ?_, fun f1 f2 t3 => ?_, fun f1 f2 f3 => ?_⟩ <;>
    simp_all [convert_scss]

/-- C7 witness: an oracle that rejects SCSS syntax but accepts indented syntax makes
`convert_scss` return the second attempt's output. -/
theorem c7_fallback_chain_witness :
    convert_scss (fun _ indented => if indented then some (chars "h1 ") else none) id .nil
      (chars "h1") = .ok (chars "h1 ") := by
  have h := (c7_fallback_chain (fun _ indented => if indented then some (chars "h1 ") else none)
    id .nil (chars "h1") [] [] rfl rfl).2.1 (by decide) (by decide)
  simpa using h

/-- C10: an input the compiler accepts with empty output under all three syntactic
variants is treated as three failed attempts — the walrus test is for truthiness —
so `convert_scss` raises `CompileError` anyway. -/
theorem c10_empty_output_raises (compileF : List Char → Bool → Option (List Char))
    (dedent : List Char → List Char) (vars : ScssDict) (contents v1 v2 : List Char)
    (h1 : convert_to_sass_variables .scss vars = some v1)
    (h2 : convert_to_sass_variables .sass vars = some v2)
    (e1 : compileF (v1 ++ contents) false = some [])
    (e2 : compileF (v2 ++ contents) true = some [])
    (e3 : compileF (v2 ++ dedent contents) true = some []) :
    convert_scss compileF dedent vars contents = .error .compile := by
  simp_all [convert_scss, truthyOpt]

/-- C10 witness: the constant `some ""` oracle produces `CompileError`. -/
theorem c10_empty_output_raises_witness :
    convert_scss (fun _ _ => some []) id .nil (chars "x") = .error .compile :=
  c10_empty_output_raises (fun _ _ => some []) id .nil (chars "x") [] []
    rfl rfl rfl rfl rfl

/-- C6: SCSS variable value rendering — strings pass through verbatim with one
trailing semicolon removed; lists join with commas and are parenthesized exactly
when converted below the top level; maps render as parenthesized `key: value`
pairs with underscores in keys turned into hyphens; booleans render as `true`/
`false`; the absent value renders as `null`; numbers render as their decimal text
(integers via `str(int)`, floats via the `case float(): return str(value)` arm,
whose `str(value)` text passes through verbatim at every level); any other value
raises `UnsupportedVariableType`. -/
theorem c6_value_rendering :
    (∀ s lvl, s.getLast? ≠ some ';' → convert_scss_value (.str s) lvl = some s) ∧
    (∀ s lvl, convert_scss_value (.str (s ++ [';'])) lvl = some s) ∧
    (∀ items, convert_scss_value (.list items) 0 = (convert_scss_list items 1).map joinComma) ∧
    (∀ items lvl, 1 ≤ lvl → convert_scss_value (.list items) lvl
      = (convert_scss_list items (lvl + 1)).map (fun ps => '(' :: (joinComma ps ++ [')']))) ∧
    (∀ es lvl, convert_scss_value (.dict es) lvl
      = (convert_scss_dict es (lvl + 1)).map (fun ps => '(' :: (joinComma ps ++ [')']))) ∧
    (∀ k lvl, 1 ≤ lvl → convert_scss_key k lvl = replaceChar '_' ['-'] k) ∧
    (∀ k v rest lvl c cs, convert_scss_value v (lvl + 1) = some c →
      convert_scss_dict rest lvl = some cs →
      convert_scss_dict (.cons k v rest) lvl
        = some ((convert_scss_key k lvl ++ chars ": " ++ c) :: cs)) ∧
    (∀ lvl, convert_scss_value (.bool true) lvl = some (chars "true")) ∧
    (∀ lvl, convert_scss_value (.bool false) lvl = some (chars "false")) ∧
    (∀ lvl, convert_scss_value .null lvl = some (chars "null")) ∧
    (∀ n lvl, convert_scss_value (.int n) lvl = some (intChars n)) ∧
    (∀ s lvl, convert_scss_value (.float s) lvl = some s) ∧
    (∀ lvl, convert_scss_value .other lvl = none) := by
  refine ⟨?_, ?_, ?_, ?_, fun es lvl => rfl, ?_, ?_, fun lvl => rfl, fun lvl => rfl,
    fun lvl => rfl, fun n lvl => rfl, fun s lvl => rfl, fun lvl => rfl⟩
  · intro s lvl hs
    simp [convert_scss_value, removeSemi, hs]
  · intro s lvl
    simp [convert_scss_value, removeSemi, List.getLast?_concat, List.dropLast_concat]
  · intro items
    simp [convert_scss_value]
  · intro items lvl hl
    have hgt : lvl + 1 > 1 := by omega
    simp [convert_scss_value, hgt]
  · intro k lvl hl
    have hne : lvl ≠ 0 := by omega
    simp [convert_scss_key, hne]
  · intro k v rest lvl c cs h1 h2
    simp [convert_scss_dict, h1, h2]

/-- C6 witness: a semicolon-stripped string, a nested (parenthesized) list, a
hyphenated map key at nesting level one, and a float's `str(value)` text passing
through verbatim. -/
theorem c6_value_rendering_witness :
    convert_scss_value (.str (chars "red;")) 0 = some (chars "red") ∧
    convert_scss_value (.list (.cons (.int 1) (.cons (.int 2) .nil))) 1 = some (chars "(1, 2)") ∧
    convert_scss_key (chars "primary_color") 1 = chars "primary-color" ∧
    convert_scss_value (.float (chars "16.5")) 0 = some (chars "16.5") := by
  refine ⟨?_, ?_, ?_, ?_⟩
  · have h := c6_value_rendering.2.1 (chars "red") 0
    simpa using h
  · have h := c6_value_rendering.2.2.2.1 (.cons (.int 1) (.cons (.int 2) .nil)) 1 (by omega)
    rw [h]; rfl
  · have h := c6_value_rendering.2.2.2.2.2.1 (chars "primary_color") 1 (by omega)
    rw [h]; rfl
  · exact c6_value_rendering.2.2.2.2.2.2.2.2.2.2.2.1 (chars "16.5") 0

theorem natDigitsCore_acc : ∀ fuel n acc, natDigitsCore fuel n acc = natDigitsCore fuel n [] ++ acc := by
  intro fuel
  induction fuel with
  | zero => intro n acc; rfl
  | succ fuel ih =>
    intro n acc
    by_cases h : n < 10
    · simp [natDigitsCore, h]
    · simp only [natDigitsCore, if_neg h]
      rw [ih (n / 10) (digitChar (n % 10) :: acc), ih (n / 10) [digitChar (n % 10)]]
      simp

theorem natDigitsCore_fuel : ∀ fuel fuel' n, n < fuel → n < fuel' →
    natDigitsCore fuel n [] = natDigitsCore fuel' n [] := by
  intro fuel
  induction fuel with
  | zero => intro fuel' n h; exact absurd h (Nat.not_lt_zero n)
  | succ fuel ih =>
    intro fuel' n h h'
    cases fuel' with
    | zero => exact absurd h' (Nat.not_lt_zero n)
    | succ fuel' =>
      by_cases h10 : n < 10
      · simp [natDigitsCore, h10]
      · have hdiv : n / 10 < n := Nat.div_lt_self (by omega) (by omega)
        simp only [natDigitsCore, if_neg h10]
        rw [natDigitsCore_acc fuel, natDigitsCore_acc fuel',
          ih fuel' (n / 10) (by omega) (by omega)]

theorem natDigits_lt10 (n : Nat) (h : n < 10) : natDigits n = [digitChar n] := by
  simp [natDigits, natDigitsCore, h]

theorem natDigits_ge10 (n : Nat) (h : 10 ≤ n) :
    natDigits n = natDigits (n / 10) ++ [digitChar (n % 10)] := by
  have hdiv : n / 10 < n := Nat.div_lt_self (by omega) (by omega)
  calc natDigits n = natDigitsCore (n + 1) n [] := rfl
    _ = natDigitsCore n (n / 10) [digitChar (n % 10)] := by
        simp only [natDigitsCore]
        rw [if_neg (Nat.not_lt.mpr h)]
    _ = natDigitsCore n (n / 10) [] ++ [digitChar (n % 10)] := natDigitsCore_acc n (n / 10) _
    _ = natDigitsCore (n / 10 + 1) (n / 10) [] ++ [digitChar (n % 10)] := by
        rw [natDigitsCore_fuel n (n / 10 + 1) (n / 10) (by omega) (by omega)]
    _ = natDigits (n / 10) ++ [digitChar (n % 10)] := rfl

theorem digitChar_isDigit : ∀ d, d < 10 → (digitChar d).isDigit = true := by decide

theorem digitChar_val : ∀ d, d < 10 → (digitChar d).toNat - 48 = d := by decide

theorem natDigits_spec (n : Nat) :
    (∀ c ∈ natDigits n, c.isDigit = true) ∧ natDigits n ≠ [] ∧
    (∀ a, (natDigits n).foldl digitVal a = a * 10 ^ (natDigits n).length + n) ∧
    (∀ k, n < 10 ^ (k + 1) → (natDigits n).length ≤ k + 1) := by
  induction n using Nat.strong_induction_on with
  | _ n ih =>
    by_cases h : n < 10
    · rw [natDigits_lt10 n h]
      refine ⟨by simpa using digitChar_isDigit n h, by simp, fun a => ?_, fun k hk => by simp⟩
      simp [digitVal, digitChar_val n h]
      omega
    · push_neg at h
      have hdiv : n / 10 < n := Nat.div_lt_self (by omega) (by omega)
      obtain ⟨ihd, ihne, ihval, ihlen⟩ := ih (n / 10) hdiv
      rw [natDigits_ge10 n h]
      refine ⟨?_, by simp, fun a => ?_, fun k hk => ?_⟩
      · intro c hc
        rcases List.mem_append.mp hc with hc | hc
        · exact ihd c hc
        · simp only [List.mem_singleton] at hc
          subst hc
          exact digitChar_isDigit _ (Nat.mod_lt _ (by omega))
      · rw [List.foldl_append, ihval a]
        simp only [List.foldl_cons, List.foldl_nil, digitVal,
          digitChar_val _ (Nat.mod_lt n (by omega)), List.length_append,
          List.length_singleton]
        calc 10 * (a * 10 ^ (natDigits (n / 10)).length + n / 10) + n % 10
            = a * (10 ^ (natDigits (n / 10)).length * 10) + (10 * (n / 10) + n % 10) := by ring
          _ = a * 10 ^ ((natDigits (n / 10)).length + 1) + n := by
              rw [Nat.div_add_mod, pow_succ]
      · cases k with
        | zero => simp at hk; omega
        | succ k =>
          have hk' : n / 10 < 10 ^ (k + 1) := by
            rw [Nat.div_lt_iff_lt_mul (by omega : (0:Nat) < 10)]
            calc n < 10 ^ (k + 2) := hk
              _ = 10 ^ (k + 1) * 10 := by rw [pow_succ]
          have := ihlen k hk'
          simp only [List.length_append, List.length_singleton]
          omega

theorem takeWhile_all_digits (p : Char → Bool) :
    ∀ ds : List Char, (∀ c ∈ ds, p c = true) → ds.takeWhile p = ds ∧ ds.dropWhile p = [] := by
  intro ds
  induction ds with
  | nil => intro _; exact ⟨rfl, rfl⟩
  | cons c rest ih =>
    intro h
    have hc : p c = true := h c (by simp)
    have ⟨ht, hd⟩ := ih fun x hx => h x (by simp [hx])
    simp [List.takeWhile, List.dropWhile, hc, ht, hd]

theorem takeWhile_append_stop (p : Char → Bool) (ds : List Char) (x : Char) (r : List Char)
    (hd : ∀ c ∈ ds, p c = true) (hx : p x = false) :
    (ds ++ x :: r).takeWhile p = ds ∧ (ds ++ x :: r).dropWhile p = x :: r := by
  induction ds with
  | nil => simp [List.takeWhile, List.dropWhile, hx]
  | cons c rest ih =>
    have hc : p c = true := hd c (by simp)
    have ⟨ht, hdr⟩ := ih fun y hy => hd y (by simp [hy])
    simp [List.takeWhile, List.dropWhile, hc, ht, hdr]

theorem parsePart_digits_stop (n : Nat) (hn : n ≤ 999) (r : List Char) :
    parsePart (natDigits n ++ '.' :: r) = some (n, '.' :: r) := by
  obtain ⟨hdig, hne, hval, hlen⟩ := natDigits_spec n
  obtain ⟨ht, hdw⟩ := takeWhile_append_stop (fun c => c.isDigit) (natDigits n) '.' r
    (fun c hc => hdig c hc) (by decide)
  have hlen3 : (natDigits n).length ≤ 3 := hlen 2 (by omega)
  have hlen1 : 1 ≤ (natDigits n).length := by
    cases hne' : natDigits n with
    | nil => exact absurd hne' hne
    | cons c cs => simp [hne']
  unfold parsePart
  simp only [ht, hdw]
  rw [if_pos (And.intro hlen1 hlen3), hval 0]
  simp

theorem parsePart_digits_end (n : Nat) (hn : n ≤ 999) :
    parsePart (natDigits n) = some (n, []) := by
  obtain ⟨hdig, hne, hval, hlen⟩ := natDigits_spec n
  obtain ⟨ht, hdw⟩ := takeWhile_all_digits (fun c => c.isDigit) (natDigits n)
    (fun c hc => hdig c hc)
  have hlen3 : (natDigits n).length ≤ 3 := hlen 2 (by omega)
  have hlen1 : 1 ≤ (natDigits n).length := by
    cases hne' : natDigits n with
    | nil => exact absurd hne' hne
    | cons c cs => simp [hne']
  unfold parsePart
  simp only [ht, hdw]
  rw [if_pos (And.intro hlen1 hlen3), hval 0]
  simp

theorem parseVersion_fmtVersion (M m p : Nat) (hM : M ≤ 999) (hm : m ≤ 999) (hp : p ≤ 999) :
    parseVersion (fmtVersion M m p) = some (M, m, p) := by
  have h1 := parsePart_digits_stop M hM (natDigits m ++ '.' :: natDigits p)
  have h2 := parsePart_digits_stop m hm (natDigits p)
  have h3 := parsePart_digits_end p hp
  simp [parseVersion, fmtVersion, h1, h2, h3]

/-- C4 (amended): bump arithmetic and explicit-version parsing as claimed, provided
every component of the formatted result stays within the regex's three-digit bound
(`≤ 999`): major bump gives `(M+1, 0, 0)`, minor `(M, m+1, 0)`, patch
`(M, m, p+1)`; an explicit version matching the dotted 1–3-digit pattern normalizes
with missing trailing parts defaulting to `0`, and a non-matching explicit string
raises `ValidationError`.  Outside the bound the formatted bump fails the re-parse
and raises the "Invalid version" error instead (see the counterexample). -/
theorem c4_version_state_machine (prev : PreviousVersion) :
    (prev.major + 1 ≤ 999 →
      decide_new_version true false false prev []
        = .ok (prev.major + 1) 0 0 (fmtVersion (prev.major + 1) 0 0)) ∧
    (prev.major ≤ 999 → prev.minor + 1 ≤ 999 →
      decide_new_version false true false prev []
        = .ok prev.major (prev.minor + 1) 0 (fmtVersion prev.major (prev.minor + 1) 0)) ∧
    (prev.major ≤ 999 → prev.minor ≤ 999 → prev.patch + 1 ≤ 999 →
      decide_new_version false false true prev []
        = .ok prev.major prev.minor (prev.patch + 1)
            (fmtVersion prev.major prev.minor (prev.patch + 1))) ∧
    (∀ v, v ≠ [] → parseVersion v = none →
      decide_new_version false false false prev v = .invalid v) ∧
    (∀ v M m p, v ≠ [] → parseVersion v = some (M, m, p) →
      decide_new_version false false false prev v = .ok M m p (fmtVersion M m p)) := by
  have e0 : chars ".0.0" = '.' :: natDigits 0 ++ '.' :: natDigits 0 := by decide
  have e1 : chars ".0" = '.' :: natDigits 0 := by decide
  refine ⟨?_, ?_, ?_, ?_, ?_⟩
  · intro h
    have e : natDigits (prev.major + 1) ++ chars ".0.0" = fmtVersion (prev.major + 1) 0 0 := by
      rw [e0]; simp [fmtVersion, List.append_assoc]
    simp [decide_new_version, XOR, e,
      parseVersion_fmtVersion (prev.major + 1) 0 0 h (by omega) (by omega)]
  · intro h1 h2
    have e : natDigits prev.major ++ '.' :: natDigits (prev.minor + 1) ++ chars ".0"
        = fmtVersion prev.major (prev.minor + 1) 0 := by
      rw [e1]; simp [fmtVersion, List.append_assoc]
    simp [decide_new_version, XOR, e,
      parseVersion_fmtVersion prev.major (prev.minor + 1) 0 h1 h2 (by omega)]
  · intro h1 h2 h3
    have e : natDigits prev.major ++ '.' :: natDigits prev.minor ++
        '.' :: natDigits (prev.patch + 1) = fmtVersion prev.major prev.minor (prev.patch + 1) := by
      simp [fmtVersion, List.append_assoc]
    simp [decide_new_version, XOR, e,
      parseVersion_fmtVersion prev.major prev.minor (prev.patch + 1) h1 h2 h3]
  · intro v hv hp
    simp [decide_new_version, XOR, hv, hp]
  · intro v M m p hv hp
    simp [decide_new_version, XOR, hv, hp]

/-- C4 counterexample: with previous major `999`, a major bump formats `1000.0.0`,
which fails the 1–3-digit regex re-parse and raises "Invalid version" instead of
yielding `(1000, 0, 0)`. -/
theorem c4_counterexample :
    decide_new_version true false false ⟨999, 0, 0⟩ [] = .invalid (chars "1000.0.0") := by
  decide

/-- C4 witness: minor bump on `2.3.1` yields `2.4.0`, and explicit `"1"` normalizes
to `1.0.0`. -/
theorem c4_version_state_machine_witness :
    decide_new_version false true false ⟨2, 3, 1⟩ [] = .ok 2 4 0 (chars "2.4.0") ∧
    decide_new_version false false false ⟨2, 3, 1⟩ (chars "1") = .ok 1 0 0 (chars "1.0.0") := by
  constructor
  · have h := (c4_version_state_machine ⟨2, 3, 1⟩).2.1 (by decide) (by decide)
    rw [show fmtVersion 2 4 0 = chars "2.4.0" from rfl] at h
    exact h
  · have h := (c4_version_state_machine ⟨2, 3, 1⟩).2.2.2.2 (chars "1") 1 0 0 (by decide) (by decide)
    rw [show fmtVersion 1 0 0 = chars "1.0.0" from rfl] at h
    exact h

theorem extract_ts_go_spec
    (recurse : String → List String → Option (List String × List String))
    (Hrec : ∀ d st1 seq st2, recurse d st1 = some (seq, st2) →
      (∃ front, seq = front ++ [d]) ∧
      (∀ n, n ∈ st1 → n ∈ st2) ∧
      (∀ n, n ∈ st2 → n ∈ st1 ∨ n ∈ seq) ∧
      (∀ n, n ∈ seq → n ∈ st2 ∨ n = d) ∧
      (∀ n, List.count n seq ≤ (if n ∈ st1 then 0 else 1) + (if n = d then 1 else 0))) :
    ∀ ds js st js' st', extract_ts_go recurse ds js st = some (js', st') →
      (∀ n, n ∈ st → n ∈ st') ∧
      (∀ n, n ∈ st' → n ∈ st ∨ n ∈ js') ∧
      (∀ n, n ∈ js' → n ∈ st' ∨ n ∈ js) ∧
      (∃ pre, js' = pre ++ js) ∧
      (∀ n, List.count n js' ≤ List.count n js + (if n ∈ st then 0 else 1)) ∧
      (∀ d, d ∈ ds → d ∈ st') := by
  intro ds
  induction ds with
  | nil =>
    intro js st js' st' h
    simp only [extract_ts_go, Option.some.injEq, Prod.mk.injEq] at h
    obtain ⟨rfl, rfl⟩ := h
    exact ⟨fun n hn => hn, fun n hn => Or.inl hn, fun n hn => Or.inr hn, ⟨[], rfl⟩,
      fun n => by simp, fun d hd => absurd hd (List.not_mem_nil d)⟩
  | cons d rest ih =>
    intro js st js' st' h
    by_cases hd : d ∈ st
    · simp only [extract_ts_go, if_pos hd] at h
      obtain ⟨i1, i2, i3, i4, i5, i6⟩ := ih js st js' st' h
      refine ⟨i1, i2, i3, i4, i5, fun d' hd' => ?_⟩
      rcases List.mem_cons.mp hd' with rfl | hm
      · exact i1 d' hd
      · exact i6 d' hm
    · simp only [extract_ts_go, if_neg hd] at h
      cases heq : recurse d (d :: st) with
      | none => rw [heq] at h; exact absurd h (by simp)
      | some val =>
        obtain ⟨seq, st2⟩ := val
        rw [heq] at h
        obtain ⟨r0, r1, r2, r3, r4⟩ := Hrec d (d :: st) seq st2 heq
        obtain ⟨i1, i2, i3, i4, i5, i6⟩ := ih (seq ++ js) st2 js' st' h
        have hdst2 : d ∈ st2 := r1 d (List.mem_cons_self d st)
        have hsub : ∀ n, n ∈ st → n ∈ st2 := fun n hn => r1 n (List.mem_cons_of_mem d hn)
        have hseqjs : ∀ n, n ∈ seq → n ∈ js' := by
          intro n hn
          obtain ⟨pre, rfl⟩ := i4
          exact List.mem_append.mpr (Or.inr (List.mem_append.mpr (Or.inl hn)))
        refine ⟨fun n hn => i1 n (hsub n hn), ?_, ?_, ?_, ?_, ?_⟩
        · intro n hn
          rcases i2 n hn with h2 | h2
          · rcases r2 n h2 with h3 | h3
            · rcases List.mem_cons.mp h3 with rfl | h4
              · obtain ⟨front, rfl⟩ := r0
                exact Or.inr (hseqjs n (List.mem_append.mpr (Or.inr (List.mem_singleton.mpr rfl))))
              · exact Or.inl h4
            · exact Or.inr (hseqjs n h3)
          · exact Or.inr h2
        · intro n hn
          rcases i3 n hn with h2 | h2
          · exact Or.inl h2
          · rcases List.mem_append.mp h2 with h3 | h3
            · rcases r3 n h3 with h4 | h4
              · exact Or.inl (i1 n h4)
              · subst h4
                exact Or.inl (i1 _ hdst2)
            · exact Or.inr h3
        · obtain ⟨pre, hpre⟩ := i4
          exact ⟨pre ++ seq, by simp [hpre]⟩
        · intro n
          have hcall := r4 n
          have hrest := i5 n
          rw [List.count_append] at hrest
          by_cases hns : n ∈ st
          · have hnd : n ≠ d := fun e => hd (e ▸ hns)
            have hmem : n ∈ d :: st := List.mem_cons_of_mem d hns
            rw [if_pos hmem, if_neg hnd] at hcall
            have hst2 : n ∈ st2 := hsub n hns
            rw [if_pos hst2] at hrest
            rw [if_pos hns]
            omega
          · rw [if_neg hns]
            by_cases hnd : n = d
            · subst hnd
              rw [if_pos (List.mem_cons_self n st), if_pos rfl] at hcall
              rw [if_pos hdst2] at hrest
              omega
            · have hmem : n ∉ d :: st := by
                intro hm
                rcases List.mem_cons.mp hm with rfl | hm'
                · exact hnd rfl
                · exact hns hm'
              rw [if_neg hmem, if_neg hnd] at hcall
              by_cases hst2 : n ∈ st2
              · rw [if_pos hst2] at hrest
                omega
              · have hnseq : List.count n seq = 0 := by
                  rw [List.count_eq_zero]
                  intro hm
                  rcases r3 n hm with h4 | h4
                  · exact hst2 h4
                  · exact hnd h4
                rw [if_neg hst2] at hrest
                omega
        · intro d' hd'
          rcases List.mem_cons.mp hd' with rfl | hm
          · exact i1 _ hdst2
          · exact i6 d' hm

theorem extract_ts_spec (deps : String → List String) :
    ∀ fuel path st seq st', extract_ts deps fuel path st = some (seq, st') →
      (∃ front, seq = front ++ [path]) ∧
      (∀ n, n ∈ st → n ∈ st') ∧
      (∀ n, n ∈ st' → n ∈ st ∨ n ∈ seq) ∧
      (∀ n, n ∈ seq → n ∈ st' ∨ n = path) ∧
      (∀ n, List.count n seq ≤ (if n ∈ st then 0 else 1) + (if n = path then 1 else 0)) ∧
      (∀ d, d ∈ deps path → d ∈ st') := by
  intro fuel
  induction fuel with
  | zero =>
    intro path st seq st' h
    exact absurd h (by simp [extract_ts])
  | succ fuel ih =>
    intro path st seq st' h
    rw [extract_ts] at h
    have Hrec : ∀ d st1 s2 st2, extract_ts deps fuel d st1 = some (s2, st2) →
        (∃ front, s2 = front ++ [d]) ∧
        (∀ n, n ∈ st1 → n ∈ st2) ∧
        (∀ n, n ∈ st2 → n ∈ st1 ∨ n ∈ s2) ∧
        (∀ n, n ∈ s2 → n ∈ st2 ∨ n = d) ∧
        (∀ n, List.count n s2 ≤ (if n ∈ st1 then 0 else 1) + (if n = d then 1 else 0)) := by
      intro d st1 s2 st2 hr
      obtain ⟨a, b, c, e, f, _⟩ := ih d st1 s2 st2 hr
      exact ⟨a, b, c, e, f⟩
    obtain ⟨L1, L2, L3, L4, L5, L6⟩ :=
      extract_ts_go_spec (extract_ts deps fuel) Hrec (deps path) [path] st seq st' h
    refine ⟨L4, L1, L2, ?_, ?_, L6⟩
    · intro n hn
      rcases L3 n hn with h1 | h1
      · exact Or.inl h1
      · exact Or.inr (List.mem_singleton.mp h1)
    · intro n
      have hcount := L5 n
      by_cases hnp : n = path
      · subst hnp
        have hcnt : List.count n [n] = 1 := by simp
        rw [hcnt] at hcount
        rw [if_pos rfl]
        omega
      · have hcnt : List.count n [path] = 0 := by
          rw [List.count_eq_zero]
          simp [hnp]
        rw [hcnt] at hcount
        rw [if_neg hnp]
        omega

/-- C8 (amended): in `extract_contents_typescript`, dependency names are marked in
the shared settings before recursing, so an already-marked (revisited or shared)
name is treated as satisfied and never inlined again: every module other than the
entry appears at most once in the emitted bundle, a name marked on entry never
appears, and each direct dependency of the entry appears exactly once and strictly
before the entry module's own (final) code.  The entry itself is never marked, so
a dependency cycle reaching back to it re-inlines it, and a shared dependency is
not in general positioned before a *later* dependent that references it, because
each dependent's block is prepended in front of the whole accumulated output (see
the counterexample for both effects). -/
theorem c8_inline_once (deps : String → List String) (fuel : Nat) (path : String)
    (st seq st' : List String) (h : extract_ts deps fuel path st = some (seq, st')) :
    (∃ front, seq = front ++ [path]) ∧
    (∀ n, n ≠ path → n ∉ st → List.count n seq ≤ 1) ∧
    (∀ n, n ≠ path → n ∈ st → List.count n seq = 0) ∧
    (∀ d, d ∈ deps path → d ≠ path → d ∉ st →
      List.count d seq = 1 ∧ d ∈ seq.dropLast) := by
  obtain ⟨E0, E1, E2, E3, E5, E6⟩ := extract_ts_spec deps fuel path st seq st' h
  refine ⟨E0, ?_, ?_, ?_⟩
  · intro n hnp hns
    have := E5 n
    rw [if_neg hns, if_neg hnp] at this
    omega
  · intro n hnp hns
    have := E5 n
    rw [if_pos hns, if_neg hnp] at this
    omega
  · intro d hdep hdp hds
    have hst' : d ∈ st' := E6 d hdep
    have hseq : d ∈ seq := by
      rcases E2 d hst' with h1 | h1
      · exact absurd h1 hds
      · exact h1
    have hle : List.count d seq ≤ 1 := by
      have := E5 d
      rw [if_neg hds, if_neg hdp] at this
      omega
    have hge : 1 ≤ List.count d seq := List.count_pos_iff.mpr hseq
    refine ⟨by omega, ?_⟩
    obtain ⟨front, rfl⟩ := E0
    rw [List.dropLast_concat]
    rcases List.mem_append.mp hseq with h1 | h1
    · exact h1
    · exact absurd (List.mem_singleton.mp h1) hdp

/-- C8 counterexample: on the acyclic diamond `a → b, c`; `b → d`; `c → d`, the
shared dependency `d` is emitted once but *after* its dependent `c` (the second
dependent's block is prepended in front of everything, including `d`), refuting
"positioned before both of its dependents"; and on the cyclic graph `a → b, c`;
`b → a`; `c → a`, the entry `a` — a dependency referenced by the two modules `b`
and `c` — is inlined twice. -/
theorem c8_counterexample :
    (extract_ts depsDiamond 5 "a" [] = some (["c", "d", "b", "a"], ["c", "d", "b"]) ∧
      ¬ List.indexOf "d" ["c", "d", "b", "a"] < List.indexOf "c" ["c", "d", "b", "a"]) ∧
    (extract_ts depsCycle 5 "a" [] = some (["c", "a", "b", "a"], ["c", "a", "b"]) ∧
      List.count "a" ["c", "a", "b", "a"] = 2) := by
  exact ⟨⟨by decide, by decide⟩, ⟨by decide, by decide⟩⟩

/-- C8 witness: applying the amended theorem to module `b` of the diamond build
shows its dependency `d` is inlined exactly once and sits before `b`'s own code. -/
theorem c8_inline_once_witness :
    List.count "d" ["d", "b"] = 1 ∧ "d" ∈ (["d", "b"] : List String).dropLast := by
  have h : extract_ts depsDiamond 5 "b" ["b"] = some (["d", "b"], ["d", "b"]) := by decide
  exact (c8_inline_once depsDiamond 5 "b" ["b"] ["d", "b"] ["d", "b"] h).2.2.2 "d"
    (by decide) (by decide) (by decide)

end Bundler
